import Mathlib

/-!
Verification development for the citation / page-location engine of the
Discord document-coach service (`services/openai_coach.py`).

Text is modelled as `List Char`.  Python's Unicode whitespace class and
`str.lower` are modelled character-wise (`isPySpace`, `lowerChar`; the case
fold is the ASCII fold, which is what the documents under test exercise).
Python floats produced by `difflib`'s `quick_ratio` are modelled as exact
rationals (`ℚ`): the ratio is a quotient of small integers and every claim
about it concerns order comparisons against the constant 0.82.
-/

namespace Coach

/-- Non-breaking space, the one character `_norm` replaces explicitly. -/
def NBSP : Char := Char.ofNat 160

/-- Code points of Python's Unicode whitespace class. -/
abbrev spProp (n : ℕ) : Prop :=
  n = 32 ∨ (9 ≤ n ∧ n ≤ 13) ∨ (28 ≤ n ∧ n ≤ 31) ∨ n = 133 ∨ n = 160 ∨ n = 0x1680 ∨
    (0x2000 ≤ n ∧ n ≤ 0x200A) ∨ n = 0x2028 ∨ n = 0x2029 ∨ n = 0x202F ∨ n = 0x205F ∨
    n = 0x3000

/-- Python's Unicode whitespace class (`\s` with `re.UNICODE`, and the
character set stripped by `str.strip()`). -/
def isPySpace (c : Char) : Bool := decide (spProp c.toNat)

/-- Character-wise model of Python `str.lower` (ASCII fold). -/
def lowerChar (c : Char) : Char :=
  if 65 ≤ c.toNat ∧ c.toNat ≤ 90 then Char.ofNat (c.toNat + 32) else c

/-- `s.replace(" ", " ")`. -/
def replaceNbsp (l : List Char) : List Char :=
  l.map (fun c => if c = NBSP then ' ' else c)

/-- Scanner for `_ws_rx.sub(" ", s)`: `inSpace` records whether the
previous character belonged to a whitespace run already replaced. -/
def collapseAux : Bool → List Char → List Char
  | _, [] => []
  | inSpace, c :: rest =>
    if isPySpace c then
      if inSpace then collapseAux true rest else ' ' :: collapseAux true rest
    else c :: collapseAux false rest

/-- `_ws_rx.sub(" ", s)`: every maximal run of whitespace becomes one space. -/
def collapseWs (l : List Char) : List Char := collapseAux false l

/-- Remove trailing whitespace (`.rstrip()` half of `.strip()`). -/
def stripEnd (l : List Char) : List Char :=
  (l.reverse.dropWhile isPySpace).reverse

/-- Python `str.strip()`. -/
def stripWs (l : List Char) : List Char :=
  stripEnd (l.dropWhile isPySpace)

/-- `_norm`: `s.replace(" "," ")`, collapse whitespace runs to single
spaces, strip, lower-case. -/
def norm (s : List Char) : List Char :=
  (stripWs (collapseWs (replaceNbsp s))).map lowerChar

/-- ASCII decimal digit (`\d` of the page-tag pattern). -/
def isDigitCh (c : Char) : Bool := decide (48 ≤ c.toNat ∧ c.toNat ≤ 57)

/-- Word character (`\w`, governing the `\b` boundary in the page-tag
pattern; ASCII model). -/
def isWordCh (c : Char) : Bool := c.isAlpha || isDigitCh c || c = '_'

/-- Does `needle` occur at the head of `hay`? -/
def matchesAt : List Char → List Char → Bool
  | [], _ => true
  | _ :: _, [] => false
  | c :: cs, h :: hs => c = h && matchesAt cs hs

/-- Python `needle in hay` substring test. -/
def hasSub : List Char → List Char → Bool
  | [], needle => matchesAt needle []
  | c :: t, needle => matchesAt needle (c :: t) || hasSub t needle

/-- Consume a literal pattern (given lower-case) case-insensitively,
returning the remainder. -/
def stripCI : List Char → List Char → Option (List Char)
  | [], l => some l
  | _ :: _, [] => none
  | p :: ps, c :: cs => if lowerChar c = p then stripCI ps cs else none

/-- Python `$` (no MULTILINE): end of string, or just before one final
newline. -/
def endAnch : List Char → Bool
  | [] => true
  | ['\n'] => true
  | _ => false

/-- `\s*\d+\)?$` of the page-tag pattern. -/
def tagNum (l : List Char) : Bool :=
  let r1 := l.dropWhile isPySpace
  let ds := r1.takeWhile isDigitCh
  let r2 := r1.dropWhile isDigitCh
  !ds.isEmpty &&
    (match r2 with
     | ')' :: r => endAnch r
     | r => endAnch r)

/-- `(?:page|p\.)\s*\d+\)?$` (case-insensitive keyword). -/
def tagBody (l : List Char) : Bool :=
  match stripCI ['p', 'a', 'g', 'e'] l with
  | some r => tagNum r
  | none =>
    match stripCI ['p', '.'] l with
    | some r => tagNum r
    | none => false

/-- Match of the whole page-tag pattern starting at the current position;
`prevWord` says whether the preceding character is a word character (for
the `\b` boundary — after an optional opening paren the boundary always
holds, the keyword starting with a word character). -/
def tagAt (prevWord : Bool) (l : List Char) : Bool :=
  match l with
  | '(' :: r => tagBody r
  | _ => !prevWord && tagBody l

/-- Leftmost position at which the page-tag pattern matches (the match
is anchored at the end of the string; it needs at least one digit, so it
never matches at the empty suffix). -/
def findTag (prevW : Bool) : List Char → Option ℕ
  | [] => none
  | c :: r =>
    if tagAt prevW (c :: r) then some 0
    else (findTag (isWordCh c) r).map (· + 1)

/-- `_strip_page_tag`: delete a trailing `(page N)` / `p. N` marker
(case-insensitive), then strip surrounding whitespace. -/
def strip_page_tag (s : List Char) : List Char :=
  match findTag false s with
  | some i => stripWs (s.take i)
  | none => stripWs s

/-- `_probe_snippets`: head / middle / tail probes of a stripped excerpt
(the excerpt itself when its stripped length is under 30). -/
def probe_snippets (qIn : List Char) : List (List Char) :=
  let q := stripWs qIn
  let L := q.length
  if L < 30 then [q]
  else
    let slices := [q.take 90,
      (q.drop (L / 2 - 45)).take (min L (L / 2 + 45) - (L / 2 - 45)),
      q.drop (L - 90)]
    let out := slices.foldl
      (fun acc s =>
        let s' := stripWs s
        if 20 ≤ s'.length ∧ ¬ acc.contains s' then acc ++ [s'] else acc) []
    if out.isEmpty then [q.take 120] else out

/-- Multiset-intersection cardinality of two character lists — the
`matches` count of `difflib.SequenceMatcher.quick_ratio` ("viewing a and b
as multisets, matches is the cardinality of their intersection"). -/
def qrMatches (a b : List Char) : ℕ :=
  (a.dedup.map (fun c => min (a.count c) (b.count c))).sum

/-- `difflib.SequenceMatcher(a=probe, b=page).quick_ratio()`:
`2*M/T`, and `1` when both strings are empty (exact rational model of the
Python float). -/
def quick_ratio (a b : List Char) : ℚ :=
  if a.length + b.length = 0 then 1
  else (2 * qrMatches a b : ℚ) / (a.length + b.length)

/-- Does any non-empty probe occur as an exact substring of the page? -/
def pageHit (probes : List (List Char)) (page : List Char) : Bool :=
  probes.any (fun pr => !pr.isEmpty && hasSub page pr)

/-- Pass 1 of `locate_page`: first page (1-based, scanning from `i`) on
which some non-empty probe occurs exactly. -/
def exactScan (probes : List (List Char)) : ℕ → List (List Char) → Option ℕ
  | _, [] => none
  | i, page :: rest =>
    if pageHit probes page then some i else exactScan probes (i + 1) rest

/-- One page of pass 2: fold the probes over the running
`(best_page, best_ratio)` pair, updating on a strictly greater ratio. -/
def fuzzyPage (i : ℕ) (page : List Char) (acc : Option ℕ × ℚ)
    (probes : List (List Char)) : Option ℕ × ℚ :=
  probes.foldl
    (fun a2 probe =>
      if quick_ratio probe page > a2.2 then (some i, quick_ratio probe page) else a2)
    acc

/-- Pass 2 of `locate_page`: scan all pages from index `i` with the
running best pair. -/
def fuzzyScanAux (probes : List (List Char)) :
    ℕ → List (List Char) → Option ℕ × ℚ → Option ℕ × ℚ
  | _, [], acc => acc
  | i, page :: rest, acc => fuzzyScanAux probes (i + 1) rest (fuzzyPage i page acc probes)

/-- Pass 2 from the initial `(None, 0.0)` accumulator, pages numbered
from 1. -/
def fuzzyScan (probes pages : List (List Char)) : Option ℕ × ℚ :=
  fuzzyScanAux probes 1 pages (none, 0)

/-- End of pass 2: return the best page iff the best ratio reaches 0.82
(`best_ratio is not None` is always true — it starts at `0.0`). -/
def locate_fuzzy (probes pages : List (List Char)) : Option ℕ :=
  if 41 / 50 ≤ (fuzzyScan probes pages).2 then (fuzzyScan probes pages).1 else none

/-- No two adjacent whitespace characters (statement-side predicate). -/
def noAdj (a b : Char) : Prop := ¬ (isPySpace a = true ∧ isPySpace b = true)

/-- Shape of fully normalized text: every whitespace character is an
ordinary space, no two adjacent, none at either end (statement-side
predicate used to prove the normalizer idempotent). -/
def tidyText (l : List Char) : Prop :=
  (∀ c ∈ l, isPySpace c = true → c = ' ') ∧ l.Chain' noAdj ∧
    (∀ c ∈ l.head?, isPySpace c = false) ∧ (∀ c ∈ l.getLast?, isPySpace c = false)

/-- Highest `quick_ratio` of any probe against one page (`0` when there
are no probes) — statement-side view of the inner fold of pass 2. -/
def pageMax (page : List Char) : List (List Char) → ℚ
  | [] => 0
  | p :: ps => max (quick_ratio p page) (pageMax page ps)

/-- `locate_page` on a concrete page list: guards, probe generation,
exact pass, then fuzzy pass. -/
def locate_page_core (pages : List (List Char)) (snippet : List Char) : Option ℕ :=
  if pages.isEmpty then none
  else
    let q_raw := strip_page_tag snippet
    let q := norm q_raw
    if q.isEmpty || q.length < 12 then none
    else
      let probes := (probe_snippets q_raw).map norm
      match exactScan probes 1 pages with
      | some i => some i
      | none => locate_fuzzy probes pages

/-- Association-list model of a Python `dict` (only lookup order-free
operations are used by the service). -/
abbrev AList (α : Type) := List (String × α)

/-- `d[k] = v`. -/
def aset (m : AList α) (k : String) (v : α) : AList α :=
  (k, v) :: m.eraseP (fun p => p.1 == k)

/-- `d.pop(k, None)`. -/
def apop (m : AList α) (k : String) : AList α :=
  m.eraseP (fun p => p.1 == k)

/-- The five module-level dictionaries of `openai_coach.py`. -/
structure CoachState where
  threadByUser : AList String
  hasFileInSession : AList Bool
  fileMap : AList String
  pageIndex : AList (AList (List (List Char)))
  filesByUser : AList (List String)

/-- A `{"file_id": ..., "quote": ...}` citation record.  A missing
upstream file id is modelled as the empty string (both are falsy in the
`if (fid and snippet)` guard). -/
structure Citation where
  file_id : String
  quote : List Char
deriving DecidableEq

/-- `_PAGE_INDEX.get(user_id, {}).get(file_id)`. -/
def pagesFor (st : CoachState) (uid fid : String) : Option (List (List Char)) :=
  match List.lookup uid st.pageIndex with
  | none => none
  | some m => List.lookup fid m

/-- `locate_page(user_id, file_id, snippet)`: index lookup (an absent or
empty index is falsy) then the two matching passes. -/
def locate_page (st : CoachState) (uid fid : String) (snippet : List Char) : Option ℕ :=
  match pagesFor st uid fid with
  | none => none
  | some pages => locate_page_core pages snippet

/-- `reset_user_thread`: pop the user's entries — except that the
`_FILE_MAP` loop pops every key of the map, not just this user's. -/
def reset_user_thread (uid : String) (st : CoachState) : CoachState :=
  { threadByUser := apop st.threadByUser uid
    hasFileInSession := apop st.hasFileInSession uid
    fileMap := []
    pageIndex := apop st.pageIndex uid
    filesByUser := apop st.filesByUser uid }

/-- Split at the first occurrence of the delimiter `d`: the characters
before it and the characters after it (`none` when `d` never occurs). -/
def spanUntil (d : Char) : List Char → Option (List Char × List Char)
  | [] => none
  | c :: t =>
    if c = d then some ([], t)
    else (spanUntil d t).map (fun p => (c :: p.1, p.2))

/-- One alternative of `_QUOTE_RX` at the current position: `[^d]+`
followed by the closing delimiter `d` — the span before the first `d`,
provided it is non-empty and `d` occurs. -/
def scanQuote (d : Char) (l : List Char) : Option (List Char) :=
  match spanUntil d l with
  | none => none
  | some (content, _) => if content.isEmpty then none else some content

/-- `_QUOTE_RX.search`: leftmost span delimited by curly or straight
double quotes (curly alternative tried first at each position). -/
def findQuote : List Char → Option (List Char)
  | [] => none
  | c :: rest =>
    let next := findQuote rest
    if c = '“' then
      match scanQuote '”' rest with
      | some q => some q
      | none => next
    else if c = '"' then
      match scanQuote '"' rest with
      | some q => some q
      | none => next
    else next

/-- `_extract_quote_from_answer`: first quoted span, trimmed, kept only
when at least 12 characters long. -/
def extract_quote_from_answer (answer : List Char) : Option (List Char) :=
  match findQuote answer with
  | none => none
  | some q =>
    let q' := stripWs q
    if 12 ≤ q'.length then some q' else none

/-- `synthesize_citations_from_answer`: quote extraction, then the user's
files tried in stored order; falls back to the last stored file. -/
def synthesize_citations_from_answer (answer : List Char) (uid : String)
    (st : CoachState) : List Citation :=
  match extract_quote_from_answer answer with
  | none => []
  | some quote =>
    let file_ids := (List.lookup uid st.filesByUser).getD []
    match file_ids.find? (fun fid => (locate_page st uid fid quote).isSome) with
    | some fid => [⟨fid, quote⟩]
    | none =>
      match file_ids.getLast? with
      | some lastF => [⟨lastF, quote⟩]
      | none => []

/-- Quote truncation of the formatter (`snippet[:137] + "..."`). -/
def truncQuote (s : List Char) : List Char :=
  if 140 < s.length then s.take 137 ++ ('.' :: '.' :: '.' :: []) else s

/-- One rendered citation line `[n] quote (filename, page ...)`. -/
def citeLine (idx : ℕ) (snippet : List Char) (filename : String)
    (page : Option ℕ) : List Char :=
  ('[' :: (toString idx).toList) ++ (']' :: ' ' :: snippet) ++
    (' ' :: '(' :: filename.toList) ++
    (match page with
     | some p => (", page ".toList) ++ (toString p).toList
     | none => ", page n/a".toList) ++ [')']

/-- `format_with_citations`: dedup by `(file_id, snippet, page)`,
number the survivors, append under a `**Citations:**` heading. -/
def format_with_citations (answer : List Char) (citations : List Citation)
    (uid : String) (st : CoachState) : List Char :=
  if citations.isEmpty then answer
  else
    let step := fun (acc : List (String × List Char × Option ℕ) × List (List Char) × ℕ)
        (c : Citation) =>
      let (seen, lines, idx) := acc
      let fid := c.file_id
      let filename := (List.lookup fid st.fileMap).getD fid
      let snippet0 := stripWs c.quote
      let page := if fid ≠ "" ∧ ¬ snippet0.isEmpty then locate_page st uid fid snippet0 else none
      let snippet1 := if snippet0.isEmpty then ("See source ".toList ++ filename.toList)
        else snippet0
      let snippet2 := truncQuote snippet1
      let key := (fid, snippet2, page)
      if seen.contains key then acc
      else (key :: seen, lines ++ [citeLine idx snippet2 filename page], idx + 1)
    let r := citations.foldl step ([], [], 1)
    answer ++ "\n\n**Citations:**\n".toList ++ List.intercalate ['\n'] r.2.1

/-- `_infer_mime_from_name`. -/
def infer_mime_from_name (filename : String) : Option String :=
  let fn := String.mk (filename.toList.map lowerChar)
  if fn.endsWith ".pdf" then some "application/pdf"
  else if fn.endsWith ".txt" then some "text/plain"
  else none

/-- The attachment descriptor handed to `coach_answer` by the command
layer. -/
structure Attachment where
  content_type : Option String
  filename : String
  size : ℕ
  url : String

/-- Outcome of `fetch_attachment_bytes`: the downloaded payload is
abstracted to its byte count (its content is consumed only by the
separately-modelled collaborator oracles). -/
inductive FetchOutcome
  | ok (len : ℕ)
  | runtimeError
  | otherError
deriving DecidableEq

/-- Oracles for one `coach_answer` call's collaborator boundary:
OpenAI thread creation, the Discord byte fetch, the PyMuPDF parse
(`none` means the parse raised; `some` carries the raw per-page texts),
the UTF-8 decode of a text file, the OpenAI upload (`none` means it
raised), the message post (`some e` means it raised `e`) and the
run/poll loop (`Except.error` means it raised). -/
structure Env where
  assistantConfigured : Bool
  createThread : Except String String
  fetchResult : FetchOutcome
  pdfParse : Option (List (List Char))
  decodeTxt : List Char
  uploadResult : Option String
  postResult : Option String
  runResult : Except String (List Char × List Citation)

/-- `get_or_create_thread`: reuse the stored thread, else create one
(whose failure propagates) and initialise the session flags. -/
def get_or_create_thread (env : Env) (st : CoachState) (uid : String) :
    Except String (String × CoachState) :=
  match List.lookup uid st.threadByUser with
  | some tid => .ok (tid, st)
  | none =>
    match env.createThread with
    | .error e => .error e
    | .ok tid =>
      .ok (tid, { st with
        threadByUser := aset st.threadByUser uid tid
        hasFileInSession := aset st.hasFileInSession uid false })

/-- Result of the attachment phase of `coach_answer`: an early returned
message, or the mutated state with the uploaded file ids. -/
inductive AttPhase
  | early (msg : List Char)
  | go (st : CoachState) (fids : List String) (uploaded : Bool)

def MSG_EMPTY : List Char := "This file is empty, no analysis possible.".toList

def MSG_UNSUPPORTED : List Char := "Unsupported file type. Please upload PDF or TXT.".toList

def MSG_TOO_LARGE : List Char := "File too large. Please keep under 15 MB.".toList

def MSG_DL : List Char :=
  "I couldn’t download the file from Discord. Please re-upload and try again.".toList

def MSG_FETCH_UNEXPECTED : List Char :=
  "Unexpected error fetching the file. Please try again.".toList

def MSG_CORRUPTED : List Char := "This file is corrupted and cannot be read.".toList

def MSG_NO_TEXT : List Char :=
  ("I couldn’t find searchable text in this document. If it’s a scanned/image-only PDF, text extraction isn’t enabled in this phase.").toList

def MSG_PROBLEM : List Char :=
  "There was a problem processing this file. Please try another file.".toList

def MSG_NEED_UPLOAD : List Char := "Please upload a PDF or TXT to start a new session.".toList

def MSG_NOT_CONFIGURED : List Char :=
  "Assistant is not configured yet. Please set NPF_ASSISTANT_ID.".toList

/-- `upload_file_to_openai` (records the filename) followed by the
per-session bookkeeping of `coach_answer`: append to the user's file
list, install the page index, set the session flag. -/
def uploadStep (env : Env) (st : CoachState) (uid : String) (a : Attachment)
    (pagesNorm : List (List Char)) : AttPhase :=
  match env.uploadResult with
  | none => .early MSG_CORRUPTED
  | some fid =>
    let st1 := { st with fileMap := aset st.fileMap fid a.filename }
    let fbu := aset st1.filesByUser uid ((List.lookup uid st1.filesByUser).getD [] ++ [fid])
    let st2 := { st1 with filesByUser := fbu }
    let pidx := aset st2.pageIndex uid (aset ((List.lookup uid st2.pageIndex).getD []) fid pagesNorm)
    let st3 := { st2 with pageIndex := pidx }
    let st4 := { st3 with hasFileInSession := aset st3.hasFileInSession uid true }
    .go st4 [fid] true

/-- The attachment block of `coach_answer`: type/size guards, download,
preflight, upload, indexing. -/
def processAttachment (env : Env) (st : CoachState) (uid : String)
    (a : Attachment) : AttPhase :=
  let ct : Option String :=
    match a.content_type with
    | some c => if c = "" then infer_mime_from_name a.filename else some c
    | none => infer_mime_from_name a.filename
  if ¬ (ct = some "application/pdf" ∨ ct = some "text/plain") then .early MSG_UNSUPPORTED
  else if a.size = 0 then .early MSG_EMPTY
  else if a.size < 1024 then .early MSG_EMPTY
  else if 15 * 1024 * 1024 < a.size then .early MSG_TOO_LARGE
  else
    match env.fetchResult with
    | .runtimeError => .early MSG_DL
    | .otherError => .early MSG_FETCH_UNEXPECTED
    | .ok dlen =>
      if dlen = 0 ∨ dlen < 1024 then .early MSG_EMPTY
      else if ct = some "application/pdf" then
        match env.pdfParse with
        | none => .early MSG_CORRUPTED
        | some rawPages =>
          if rawPages.length = 0 then .early MSG_CORRUPTED
          else
            let pagesNorm := rawPages.map norm
            if (pagesNorm.map List.length).sum < 40 then .early MSG_NO_TEXT
            else uploadStep env st uid a pagesNorm
      else
        let txt := stripWs env.decodeTxt
        if txt.isEmpty then .early MSG_EMPTY
        else uploadStep env st uid a []

/-- `coach_answer`: the top-level entry point, returning the produced
string (`Except.ok`) or the propagated exception (`Except.error`),
together with the final module state and whether the upload collaborator
was invoked. -/
def coach_answer (env : Env) (st : CoachState) (uid : String)
    (_question : List Char) (att : Option Attachment) :
    Except String (List Char) × CoachState × Bool :=
  if env.assistantConfigured = false then (.ok MSG_NOT_CONFIGURED, st, false)
  else
    match get_or_create_thread env st uid with
    | .error e => (.error e, st, false)
    | .ok (_tid, st0) =>
      let phase : AttPhase :=
        match att with
        | none => .go st0 [] false
        | some a => processAttachment env st0 uid a
      match phase with
      | .early m => (.ok m, st0, false)
      | .go st1 fids uploaded =>
        if fids.isEmpty ∧ ¬ ((List.lookup uid st1.hasFileInSession).getD false) then
          (.ok MSG_NEED_UPLOAD, st1, uploaded)
        else
          match env.postResult with
          | some e => (.error e, st1, uploaded)
          | none =>
            match env.runResult with
            | .error e => (.error e, st1, uploaded)
            | .ok (answer, cites) =>
              let cites2 :=
                if cites.isEmpty then
                  let fb := synthesize_citations_from_answer answer uid st1
                  if fb.isEmpty then cites else fb
                else cites
              (.ok (format_with_citations answer cites2 uid st1), st1, uploaded)

/-! ## Character-level facts -/

theorem isPySpace_iff (c : Char) : isPySpace c = true ↔ spProp c.toNat := by
  simp [isPySpace]

theorem lowerChar_toNat (c : Char) :
    (lowerChar c).toNat = if 65 ≤ c.toNat ∧ c.toNat ≤ 90 then c.toNat + 32 else c.toNat := by
  by_cases h : 65 ≤ c.toNat ∧ c.toNat ≤ 90
  · rw [lowerChar, if_pos h, if_pos h]
    unfold Char.ofNat
    rw [dif_pos (Or.inl (by omega))]
    rfl
  · rw [lowerChar, if_neg h, if_neg h]

theorem lowerChar_idem (c : Char) : lowerChar (lowerChar c) = lowerChar c := by
  by_cases h : 65 ≤ c.toNat ∧ c.toNat ≤ 90
  · have h1 : (lowerChar c).toNat = c.toNat + 32 := by rw [lowerChar_toNat, if_pos h]
    have h2 : ¬ (65 ≤ (lowerChar c).toNat ∧ (lowerChar c).toNat ≤ 90) := by omega
    calc lowerChar (lowerChar c)
        = if 65 ≤ (lowerChar c).toNat ∧ (lowerChar c).toNat ≤ 90 then
            Char.ofNat ((lowerChar c).toNat + 32) else lowerChar c := rfl
      _ = lowerChar c := if_neg h2
  · have h1 : lowerChar c = c := if_neg h
    rw [h1]; exact h1

theorem isPySpace_lowerChar (c : Char) : isPySpace (lowerChar c) = isPySpace c := by
  by_cases h : 65 ≤ c.toNat ∧ c.toNat ≤ 90
  · have h1 : (lowerChar c).toNat = c.toNat + 32 := by rw [lowerChar_toNat, if_pos h]
    have a1 : ¬ spProp (lowerChar c).toNat := by rw [h1]; omega
    have a2 : ¬ spProp c.toNat := by omega
    rw [isPySpace, isPySpace, decide_eq_false a1, decide_eq_false a2]
  · have h1 : lowerChar c = c := if_neg h
    rw [h1]

theorem lowerChar_space : lowerChar ' ' = ' ' := by decide

theorem toNat_eq_160_of_eq_nbsp {c : Char} (h : c = NBSP) : c.toNat = 160 := by
  subst h; decide

/-! ## Generic list facts -/

theorem map_fix {α : Type} (f : α → α) :
    ∀ (l : List α), (∀ x ∈ l, f x = x) → l.map f = l := by
  intro l h
  calc l.map f = l.map id := List.map_congr_left h
    _ = l := List.map_id l

theorem dropWhile_head_not {α : Type} (p : α → Bool) :
    ∀ (l : List α) {c : α} {r : List α}, l.dropWhile p = c :: r → p c = false := by
  intro l
  induction l with
  | nil => intro c r h; simp [List.dropWhile] at h
  | cons a t ih =>
    intro c r h
    rw [List.dropWhile_cons] at h
    by_cases hp : p a
    · rw [if_pos hp] at h; exact ih h
    · rw [if_neg hp] at h
      cases h
      exact Bool.not_eq_true _ |>.mp hp

theorem dropWhile_eq_self_of_head {α : Type} (p : α → Bool) (l : List α)
    (h : ∀ c ∈ l.head?, p c = false) : l.dropWhile p = l := by
  cases l with
  | nil => rfl
  | cons a t =>
    have : p a = false := h a rfl
    rw [List.dropWhile_cons, if_neg (by simp [this])]

theorem prefix_of_stripEnd (l : List Char) : stripEnd l <+: l := by
  rcases List.dropWhile_suffix (l := l.reverse) isPySpace with ⟨t, ht⟩
  refine ⟨t.reverse, ?_⟩
  have : (t ++ l.reverse.dropWhile isPySpace).reverse = l.reverse.reverse := by rw [ht]
  rw [List.reverse_append, List.reverse_reverse] at this
  rw [stripEnd]
  exact this

/-! ## Shape of collapsed / stripped / normalized text -/

theorem collapseAux_spaces :
    ∀ (l : List Char) (b : Bool), ∀ c ∈ collapseAux b l, isPySpace c = true → c = ' ' := by
  intro l
  induction l with
  | nil => intro b c hc; simp [collapseAux] at hc
  | cons a t ih =>
    intro b c hc hsp
    rw [collapseAux] at hc
    by_cases ha : isPySpace a
    · rw [if_pos ha] at hc
      by_cases hb : b = true
      · rw [if_pos hb] at hc
        exact ih true c hc hsp
      · rw [if_neg hb] at hc
        rcases List.mem_cons.mp hc with hc1 | hc1
        · exact hc1
        · exact ih true c hc1 hsp
    · rw [if_neg ha] at hc
      rcases List.mem_cons.mp hc with hc1 | hc1
      · subst hc1; exact absurd hsp (by simpa using ha)
      · exact ih false c hc1 hsp

theorem collapseWs_spaces :
    ∀ (l : List Char), ∀ c ∈ collapseWs l, isPySpace c = true → c = ' ' :=
  fun l => collapseAux_spaces l false

theorem collapseAux_true_head :
    ∀ (l : List Char), ∀ c ∈ (collapseAux true l).head?, isPySpace c = false := by
  intro l
  induction l with
  | nil => intro c hc; simp [collapseAux] at hc
  | cons a t ih =>
    intro c hc
    rw [collapseAux] at hc
    by_cases ha : isPySpace a
    · rw [if_pos ha, if_pos rfl] at hc
      exact ih c hc
    · rw [if_neg ha] at hc
      simp only [List.head?_cons, Option.mem_def, Option.some.injEq] at hc
      subst hc
      simpa using ha

theorem collapseAux_chain :
    ∀ (l : List Char) (b : Bool), (collapseAux b l).Chain' noAdj := by
  intro l
  induction l with
  | nil => intro b; simp [collapseAux]
  | cons a t ih =>
    intro b
    rw [collapseAux]
    by_cases ha : isPySpace a
    · rw [if_pos ha]
      by_cases hb : b = true
      · rw [if_pos hb]; exact ih true
      · rw [if_neg hb, List.chain'_cons']
        refine ⟨?_, ih true⟩
        intro c hc
        have := collapseAux_true_head t c hc
        intro hand
        rw [this] at hand
        exact Bool.false_ne_true hand.2
    · rw [if_neg ha, List.chain'_cons']
      refine ⟨?_, ih false⟩
      intro c _ hand
      exact absurd hand.1 (by simpa using ha)

theorem collapseWs_chain (l : List Char) : (collapseWs l).Chain' noAdj :=
  collapseAux_chain l false

theorem collapseAux_fix :
    ∀ (l : List Char), (∀ c ∈ l, isPySpace c = true → c = ' ') → l.Chain' noAdj →
      collapseAux false l = l ∧
        ((∀ c ∈ l.head?, isPySpace c = false) → collapseAux true l = l) := by
  intro l
  induction l with
  | nil => intro _ _; exact ⟨rfl, fun _ => rfl⟩
  | cons a t ih =>
    intro hsp hch
    rw [List.chain'_cons'] at hch
    obtain ⟨ih1, ih2⟩ := ih (fun c hc h => hsp c (by simp [hc]) h) hch.2
    constructor
    · by_cases ha : isPySpace a
      · have ha' : a = ' ' := hsp a (by simp) ha
        have hthead : ∀ c ∈ t.head?, isPySpace c = false := by
          intro c hc
          have := hch.1 c hc
          by_contra hbad
          exact this ⟨ha, by simpa using hbad⟩
        rw [collapseAux, if_pos ha, if_neg (by simp), ih2 hthead, ha']
      · rw [collapseAux, if_neg ha, ih1]
    · intro hhead
      have ha : isPySpace a = false := hhead a rfl
      rw [collapseAux, if_neg (by simp [ha]), ih1]

theorem collapseWs_fix (l : List Char) (hsp : ∀ c ∈ l, isPySpace c = true → c = ' ')
    (hch : l.Chain' noAdj) : collapseWs l = l :=
  (collapseAux_fix l hsp hch).1

theorem stripWs_subset {c : Char} {l : List Char} (h : c ∈ stripWs l) : c ∈ l := by
  have h1 : c ∈ l.dropWhile isPySpace := by
    have hp := prefix_of_stripEnd (l.dropWhile isPySpace)
    exact hp.sublist.subset h
  exact (List.dropWhile_suffix isPySpace).sublist.subset h1

theorem noAdj_flip {a b : Char} (h : noAdj a b) : noAdj b a := by
  intro hand; exact h ⟨hand.2, hand.1⟩

theorem chain_stripEnd {l : List Char} (h : l.Chain' noAdj) :
    (stripEnd l).Chain' noAdj := by
  rw [stripEnd, List.chain'_reverse]
  have h2 : l.reverse.Chain' (flip noAdj) := by
    rw [List.chain'_reverse]
    exact h.imp (fun a b hab => hab)
  rcases List.dropWhile_suffix (l := l.reverse) isPySpace with ⟨t, ht⟩
  rw [← ht] at h2
  exact ((List.chain'_append).mp h2).2.1

theorem chain_stripWs {l : List Char} (h : l.Chain' noAdj) :
    (stripWs l).Chain' noAdj := by
  rw [stripWs]
  refine chain_stripEnd ?_
  rcases List.dropWhile_suffix (l := l) isPySpace with ⟨t, ht⟩
  rw [← ht] at h
  exact ((List.chain'_append).mp h).2.1

theorem stripWs_head {l : List Char} : ∀ c ∈ (stripWs l).head?, isPySpace c = false := by
  intro c hc
  cases hs : stripWs l with
  | nil => rw [hs] at hc; simp at hc
  | cons a t =>
    rw [hs] at hc
    simp only [List.head?_cons, Option.mem_def, Option.some.injEq] at hc
    subst hc
    have hp : stripEnd (l.dropWhile isPySpace) <+: l.dropWhile isPySpace :=
      prefix_of_stripEnd _
    rw [stripWs] at hs
    rcases hp with ⟨t2, ht2⟩
    rw [hs] at ht2
    exact dropWhile_head_not isPySpace l ht2.symm

theorem stripWs_getLast {l : List Char} :
    ∀ c ∈ (stripWs l).getLast?, isPySpace c = false := by
  intro c hc
  rw [stripWs, stripEnd] at hc
  rw [List.getLast?_reverse] at hc
  cases hd : (l.dropWhile isPySpace).reverse.dropWhile isPySpace with
  | nil => rw [hd] at hc; simp at hc
  | cons a t =>
    rw [hd] at hc
    simp only [List.head?_cons, Option.mem_def, Option.some.injEq] at hc
    subst hc
    exact dropWhile_head_not isPySpace _ hd

theorem stripWs_fix (l : List Char)
    (hh : ∀ c ∈ l.head?, isPySpace c = false)
    (hl : ∀ c ∈ l.getLast?, isPySpace c = false) : stripWs l = l := by
  rw [stripWs, dropWhile_eq_self_of_head isPySpace l hh, stripEnd,
    dropWhile_eq_self_of_head isPySpace l.reverse
      (by intro c hc; rw [List.head?_reverse] at hc; exact hl c hc),
    List.reverse_reverse]

/-! ## The normalizer is idempotent -/

theorem norm_tidy (s : List Char) : tidyText (norm s) := by
  have spaces1 : ∀ c ∈ stripWs (collapseWs (replaceNbsp s)), isPySpace c = true → c = ' ' :=
    fun c hc => collapseWs_spaces (replaceNbsp s) c (stripWs_subset hc)
  refine ⟨?_, ?_, ?_, ?_⟩
  · intro c hc hsp
    rw [norm] at hc
    rcases List.mem_map.mp hc with ⟨d, hd, hdc⟩
    have hspd : isPySpace d = true := by
      rw [← isPySpace_lowerChar, hdc]; exact hsp
    have : d = ' ' := spaces1 d hd hspd
    rw [← hdc, this, lowerChar_space]
  · rw [norm, List.chain'_map]
    refine (chain_stripWs (collapseWs_chain (replaceNbsp s))).imp ?_
    intro a b hab
    intro hand
    exact hab ⟨by rw [← isPySpace_lowerChar a]; exact hand.1,
      by rw [← isPySpace_lowerChar b]; exact hand.2⟩
  · intro c hc
    rw [norm, List.head?_map] at hc
    cases hh : (stripWs (collapseWs (replaceNbsp s))).head? with
    | none => rw [hh] at hc; simp at hc
    | some d =>
      rw [hh] at hc
      have hcd : lowerChar d = c := by simpa using hc
      rw [← hcd, isPySpace_lowerChar]
      exact stripWs_head d hh
  · intro c hc
    rw [norm, List.getLast?_map] at hc
    cases hh : (stripWs (collapseWs (replaceNbsp s))).getLast? with
    | none => rw [hh] at hc; simp at hc
    | some d =>
      rw [hh] at hc
      have hcd : lowerChar d = c := by simpa using hc
      rw [← hcd, isPySpace_lowerChar]
      exact stripWs_getLast d hh

theorem norm_fix (l : List Char) (ht : tidyText l)
    (himg : ∃ u : List Char, l = u.map lowerChar) : norm l = l := by
  obtain ⟨hsp, hch, hhd, hlast⟩ := ht
  have hnb : replaceNbsp l = l := by
    refine map_fix _ l ?_
    intro c hc
    by_cases hceq : c = NBSP
    · exfalso
      have h1 : isPySpace c = true := by
        rw [isPySpace_iff, toNat_eq_160_of_eq_nbsp hceq]
        omega
      have h2 := hsp c hc h1
      rw [h2] at hceq
      exact absurd hceq (by decide)
    · rw [if_neg hceq]
  have hcol : collapseWs l = l := collapseWs_fix l hsp hch
  have hstr : stripWs l = l := stripWs_fix l hhd hlast
  have hmap : l.map lowerChar = l := by
    obtain ⟨u, hu⟩ := himg
    rw [hu, List.map_map]
    refine List.map_congr_left ?_
    intro a _
    exact lowerChar_idem a
  rw [norm, hnb, hcol, hstr, hmap]

/-- C6: the text normalizer `_norm` is idempotent — for every input
string (including the empty string, pure-whitespace strings and strings
containing non-breaking spaces) normalizing twice equals normalizing
once. -/
theorem norm_idempotent (s : List Char) : norm (norm s) = norm s :=
  norm_fix (norm s) (norm_tidy s) ⟨stripWs (collapseWs (replaceNbsp s)), rfl⟩

/-! ## The fuzzy pass of the page locator -/

theorem quick_ratio_nonneg (a b : List Char) : 0 ≤ quick_ratio a b := by
  rw [quick_ratio]
  split
  · norm_num
  · apply div_nonneg <;> positivity

theorem pageMax_nonneg (page : List Char) :
    ∀ (probes : List (List Char)), 0 ≤ pageMax page probes := by
  intro probes
  induction probes with
  | nil => exact le_refl 0
  | cons p ps ih => exact le_trans ih (le_max_right _ _)

theorem fuzzyPage_nil (i : ℕ) (page : List Char) (acc : Option ℕ × ℚ) :
    fuzzyPage i page acc [] = acc := rfl

theorem fuzzyPage_cons (i : ℕ) (page : List Char) (acc : Option ℕ × ℚ)
    (p : List Char) (ps : List (List Char)) :
    fuzzyPage i page acc (p :: ps) =
      fuzzyPage i page
        (if quick_ratio p page > acc.2 then (some i, quick_ratio p page) else acc) ps := rfl

theorem fuzzyPage_eq (i : ℕ) (page : List Char) :
    ∀ (probes : List (List Char)) (bp : Option ℕ) (br : ℚ), 0 ≤ br →
      fuzzyPage i page (bp, br) probes =
        (if br < pageMax page probes then some i else bp, max br (pageMax page probes)) := by
  intro probes
  induction probes with
  | nil =>
    intro bp br h
    rw [fuzzyPage]
    simp only [List.foldl_nil, pageMax]
    rw [if_neg (not_lt.mpr h), max_eq_left h]
  | cons p ps ih =>
    intro bp br h
    rw [fuzzyPage_cons]
    have hq := quick_ratio_nonneg p page
    have hM : pageMax page (p :: ps) = max (quick_ratio p page) (pageMax page ps) := rfl
    by_cases hr : quick_ratio p page > br
    · rw [if_pos hr]
      rw [ih (some i) (quick_ratio p page) hq]
      rw [hM]
      have h1 : br < max (quick_ratio p page) (pageMax page ps) :=
        lt_max_iff.mpr (Or.inl hr)
      rw [if_pos h1]
      have h2 : max (quick_ratio p page) (pageMax page ps) =
          max br (max (quick_ratio p page) (pageMax page ps)) :=
        (max_eq_right (le_of_lt h1)).symm
      rw [← h2]
      by_cases h3 : quick_ratio p page < pageMax page ps
      · rw [if_pos h3, max_eq_right (le_of_lt h3)]
      · rw [if_neg h3, max_eq_left (not_lt.mp h3)]
    · rw [if_neg hr]
      rw [ih bp br h, hM]
      have hle : quick_ratio p page ≤ br := not_lt.mp hr
      have h1 : (br < max (quick_ratio p page) (pageMax page ps)) ↔ (br < pageMax page ps) := by
        rw [lt_max_iff]
        constructor
        · intro hx
          rcases hx with hx | hx
          · exact absurd hx hr
          · exact hx
        · intro hx; exact Or.inr hx
      have h2 : max br (max (quick_ratio p page) (pageMax page ps)) =
          max br (pageMax page ps) := by
        rw [← max_assoc, max_eq_left hle]
      rw [h2]
      by_cases h3 : br < pageMax page ps
      · rw [if_pos (h1.mpr h3), if_pos h3]
      · rw [if_neg (fun hx => h3 (h1.mp hx)), if_neg h3]

theorem fuzzyScanAux_nil (probes : List (List Char)) (i : ℕ) (acc : Option ℕ × ℚ) :
    fuzzyScanAux probes i [] acc = acc := rfl

theorem fuzzyScanAux_cons (probes : List (List Char)) (i : ℕ) (page : List Char)
    (rest : List (List Char)) (acc : Option ℕ × ℚ) :
    fuzzyScanAux probes i (page :: rest) acc =
      fuzzyScanAux probes (i + 1) rest (fuzzyPage i page acc probes) := rfl

theorem fuzzyScanAux_spec (probes : List (List Char)) :
    ∀ (pages : List (List Char)) (i : ℕ) (bp : Option ℕ) (br : ℚ), 0 ≤ br →
      (br ≤ (fuzzyScanAux probes i pages (bp, br)).2) ∧
      (∀ j, j < pages.length →
        pageMax (pages.getD j []) probes ≤ (fuzzyScanAux probes i pages (bp, br)).2) ∧
      (fuzzyScanAux probes i pages (bp, br) = (bp, br) ∨
        ∃ k, k < pages.length ∧
          (fuzzyScanAux probes i pages (bp, br)).1 = some (i + k) ∧
          pageMax (pages.getD k []) probes = (fuzzyScanAux probes i pages (bp, br)).2 ∧
          br < (fuzzyScanAux probes i pages (bp, br)).2 ∧
          ∀ j, j < k →
            pageMax (pages.getD j []) probes < (fuzzyScanAux probes i pages (bp, br)).2) := by
  intro pages
  induction pages with
  | nil =>
    intro i bp br h
    refine ⟨le_refl br, ?_, Or.inl rfl⟩
    intro j hj
    simp at hj
  | cons page rest ih =>
    intro i bp br h
    have hpm := pageMax_nonneg page probes
    rw [fuzzyScanAux_cons, fuzzyPage_eq i page probes bp br h]
    set pm := pageMax page probes with hpmdef
    set bp' := if br < pm then some i else bp with hbp'
    have hbr' : (0 : ℚ) ≤ max br pm := le_trans h (le_max_left _ _)
    obtain ⟨ihA, ihB, ihC⟩ := ih (i + 1) bp' (max br pm) hbr'
    refine ⟨le_trans (le_max_left _ _) ihA, ?_, ?_⟩
    · intro j hj
      cases j with
      | zero =>
        simpa using le_trans (le_max_right br pm) ihA
      | succ j' =>
        rw [List.getD_cons_succ]
        exact ihB j' (by simpa using hj)
    · rcases ihC with hL | ⟨k, hk, h1, h2, h3, h4⟩
      · rw [hL]
        by_cases hbr : br < pm
        · refine Or.inr ⟨0, by simp, ?_, ?_, ?_, ?_⟩
          · rw [hbp', if_pos hbr]; simp
          · simp only [List.getD_cons_zero]
            rw [← hpmdef, max_eq_right (le_of_lt hbr)]
          · simp only []
            rw [max_eq_right (le_of_lt hbr)]
            exact hbr
          · intro j hj; omega
        · refine Or.inl ?_
          rw [hbp', if_neg hbr, max_eq_left (not_lt.mp hbr)]
      · refine Or.inr ⟨k + 1, by simpa using hk, ?_, ?_, ?_, ?_⟩
        · rw [h1]; congr 1; omega
        · rw [List.getD_cons_succ]; exact h2
        · exact lt_of_le_of_lt (le_max_left br pm) h3
        · intro j hj
          cases j with
          | zero =>
            simp only [List.getD_cons_zero]
            exact lt_of_le_of_lt (le_max_right br pm) h3
          | succ j' =>
            rw [List.getD_cons_succ]
            exact h4 j' (by omega)

/-- C1: in the fuzzy pass, the running best pair is updated only on a
strictly greater ratio, so the scan's final ratio bounds every
(page, probe) ratio, the returned page is the earliest page attaining
that maximum, and the locator returns the best page exactly when the
best ratio is at least 0.82 — in particular a best ratio of exactly
0.82 returns the page; when the exact pass fails, `locate_page_core`
returns this fuzzy result. -/
theorem fuzzy_pass_correct (probes pages : List (List Char)) :
    (∀ j, j < pages.length →
      pageMax (pages.getD j []) probes ≤ (fuzzyScan probes pages).2) ∧
    (∀ k, (fuzzyScan probes pages).1 = some k →
      1 ≤ k ∧ k ≤ pages.length ∧
      pageMax (pages.getD (k - 1) []) probes = (fuzzyScan probes pages).2 ∧
      ∀ j, j < k - 1 →
        pageMax (pages.getD j []) probes < (fuzzyScan probes pages).2) ∧
    (locate_fuzzy probes pages =
      if 41 / 50 ≤ (fuzzyScan probes pages).2 then (fuzzyScan probes pages).1 else none) ∧
    (41 / 50 ≤ (fuzzyScan probes pages).2 → ∃ k, locate_fuzzy probes pages = some k) ∧
    ((fuzzyScan probes pages).2 = 41 / 50 →
      locate_fuzzy probes pages = (fuzzyScan probes pages).1) ∧
    (∀ snippet : List Char, pages.isEmpty = false →
      ¬ ((norm (strip_page_tag snippet)).isEmpty ∨
        (norm (strip_page_tag snippet)).length < 12) →
      exactScan ((probe_snippets (strip_page_tag snippet)).map norm) 1 pages = none →
      locate_page_core pages snippet =
        locate_fuzzy ((probe_snippets (strip_page_tag snippet)).map norm) pages) := by
  obtain ⟨hA, hB, hC⟩ := fuzzyScanAux_spec probes pages 1 none 0 (le_refl 0)
  have hscan : fuzzyScan probes pages = fuzzyScanAux probes 1 pages (none, 0) := rfl
  refine ⟨?_, ?_, ?_, ?_, ?_, ?_⟩
  · intro j hj; rw [hscan]; exact hB j hj
  · intro k hk
    rw [hscan] at hk ⊢
    rcases hC with hL | ⟨k', hk', h1, h2, h3, h4⟩
    · rw [hL] at hk; exact absurd hk (by simp)
    · rw [h1] at hk
      have hkk : k = 1 + k' := by
        injection hk with hkk; omega
      subst hkk
      refine ⟨by omega, by omega, ?_, ?_⟩
      · have : 1 + k' - 1 = k' := by omega
        rw [this]; exact h2
      · intro j hj
        exact h4 j (by omega)
  · rfl
  · intro hth
    rw [locate_fuzzy, if_pos hth]
    rw [hscan] at hth ⊢
    rcases hC with hL | ⟨k', _, h1, _, _, _⟩
    · rw [hL] at hth
      exact absurd hth (by norm_num)
    · exact ⟨1 + k', h1⟩
  · intro heq
    rw [locate_fuzzy, if_pos (le_of_eq heq.symm)]
  · intro snippet hne hguard hexact
    rw [locate_page_core]
    rw [if_neg (by simp [hne])]
    have hg : ((norm (strip_page_tag snippet)).isEmpty ||
        decide ((norm (strip_page_tag snippet)).length < 12)) = false := by
      refine Bool.or_eq_false_iff.mpr ⟨?_, ?_⟩
      · cases hq : norm (strip_page_tag snippet) with
        | nil => exact absurd (Or.inl (by simp [hq])) hguard
        | cons a t => rfl
      · simp only [decide_eq_false_iff_not]
        intro hbad
        exact hguard (Or.inr hbad)
    simp only [hg, hexact]
    simp

/-! ## The exact pass of the page locator -/

theorem exactScan_nil (probes : List (List Char)) (i : ℕ) :
    exactScan probes i [] = none := rfl

theorem exactScan_cons (probes : List (List Char)) (i : ℕ) (page : List Char)
    (rest : List (List Char)) :
    exactScan probes i (page :: rest) =
      if pageHit probes page then some i else exactScan probes (i + 1) rest := rfl

theorem exactScan_spec (probes : List (List Char)) :
    ∀ (pages : List (List Char)) (i k : ℕ), k < pages.length →
      pageHit probes (pages.getD k []) = true →
      (∀ j, j < k → pageHit probes (pages.getD j []) = false) →
      exactScan probes i pages = some (i + k) := by
  intro pages
  induction pages with
  | nil => intro i k hk; simp at hk
  | cons page rest ih =>
    intro i k hk hhit hbefore
    cases k with
    | zero =>
      rw [List.getD_cons_zero] at hhit
      rw [exactScan_cons, if_pos hhit]
      simp
    | succ k' =>
      have h0 : pageHit probes page = false := by
        have := hbefore 0 (by omega)
        rwa [List.getD_cons_zero] at this
      rw [exactScan_cons, if_neg (by simp [h0])]
      have := ih (i + 1) k' (by simpa using hk)
        (by rwa [List.getD_cons_succ] at hhit)
        (fun j hj => by
          have := hbefore (j + 1) (by omega)
          rwa [List.getD_cons_succ] at this)
      rw [this]
      congr 1
      omega

/-- C2: in the exact pass, pages are scanned in ascending order, so if
some generated probe occurs as an exact substring of page `k+1` (1-based)
and no probe occurs in any earlier page, `locate_page_core` returns
`k+1`; consequently, when two pages with identical text both contain a
probe, the lower page number is returned. -/
theorem exact_pass_first_match (pages : List (List Char)) (snippet : List Char)
    (h12 : 12 ≤ (norm (strip_page_tag snippet)).length) :
    (∀ k, k < pages.length →
      pageHit ((probe_snippets (strip_page_tag snippet)).map norm) (pages.getD k []) = true →
      (∀ j, j < k →
        pageHit ((probe_snippets (strip_page_tag snippet)).map norm) (pages.getD j []) = false) →
      locate_page_core pages snippet = some (k + 1)) ∧
    (∀ i j, i < j → j < pages.length → pages.getD i [] = pages.getD j [] →
      pageHit ((probe_snippets (strip_page_tag snippet)).map norm) (pages.getD i []) = true →
      (∀ l, l < i →
        pageHit ((probe_snippets (strip_page_tag snippet)).map norm) (pages.getD l []) = false) →
      locate_page_core pages snippet = some (i + 1)) := by
  have main : ∀ k, k < pages.length →
      pageHit ((probe_snippets (strip_page_tag snippet)).map norm) (pages.getD k []) = true →
      (∀ j, j < k →
        pageHit ((probe_snippets (strip_page_tag snippet)).map norm) (pages.getD j []) = false) →
      locate_page_core pages snippet = some (k + 1) := by
    intro k hk hhit hbefore
    have hne : pages.isEmpty = false := by
      cases pages with
      | nil => simp at hk
      | cons a t => rfl
    rw [locate_page_core, if_neg (by simp [hne])]
    have hg : ((norm (strip_page_tag snippet)).isEmpty ||
        decide ((norm (strip_page_tag snippet)).length < 12)) = false := by
      refine Bool.or_eq_false_iff.mpr ⟨?_, ?_⟩
      · cases hq : norm (strip_page_tag snippet) with
        | nil => rw [hq] at h12; simp at h12
        | cons a t => rfl
      · simp only [decide_eq_false_iff_not]
        omega
    simp only [hg]
    rw [exactScan_spec _ pages 1 k hk hhit hbefore]
    show some (1 + k) = some (k + 1)
    congr 1
    omega
  refine ⟨main, ?_⟩
  intro i j _ hj hsame hhit hbefore
  exact main i (by omega) hhit hbefore

theorem fuzzy_pass_correct_witness :
    ∃ k, locate_fuzzy [['a', 'b']] [['x', 'y'], ['b', 'a']] = some k := by
  have h1 : quick_ratio ['a', 'b'] ['x', 'y'] = 0 := by
    have hm : qrMatches ['a', 'b'] ['x', 'y'] = 0 := by decide
    rw [quick_ratio, if_neg (by decide), hm]
    norm_num
  have h2 : quick_ratio ['a', 'b'] ['b', 'a'] = 1 := by
    have hm : qrMatches ['a', 'b'] ['b', 'a'] = 2 := by decide
    rw [quick_ratio, if_neg (by decide), hm]
    norm_num
  have hscan : fuzzyScan [['a', 'b']] [['x', 'y'], ['b', 'a']] = (some 2, 1) := by
    have hs : fuzzyScan [['a', 'b']] [['x', 'y'], ['b', 'a']] =
        fuzzyScanAux [['a', 'b']] 1 [['x', 'y'], ['b', 'a']] (none, 0) := rfl
    rw [hs, fuzzyScanAux_cons, fuzzyPage_cons, h1]
    rw [if_neg (by norm_num)]
    rw [fuzzyPage_nil, fuzzyScanAux_cons, fuzzyPage_cons, h2]
    rw [if_pos (by norm_num)]
    rw [fuzzyPage_nil, fuzzyScanAux_nil]
  refine (fuzzy_pass_correct [['a', 'b']] [['x', 'y'], ['b', 'a']]).2.2.2.1 ?_
  rw [hscan]
  norm_num

theorem exact_pass_first_match_witness :
    locate_page_core ["xx abcdefghijkl".toList, "xx abcdefghijkl".toList]
      "AbcDefGhijkl".toList = some 1 := by
  have h := exact_pass_first_match
    ["xx abcdefghijkl".toList, "xx abcdefghijkl".toList] "AbcDefGhijkl".toList (by decide)
  exact h.2 0 1 (by decide) (by decide) (by decide) (by decide)
    (fun l hl => absurd hl (by omega))

/-! ## The probe generator on short excerpts -/

/-- C8 counterexample: an excerpt whose normalized length is between 12
and 29 but whose raw (whitespace-intact) length exceeds 90; the probe
generator slices it instead of returning the excerpt itself. -/
theorem probe_snippets_normalized_length_counterexample :
    12 ≤ (norm ("abcdefghij".toList ++ List.replicate 80 ' ' ++ "klmnopqrstuv".toList)).length ∧
    (norm ("abcdefghij".toList ++ List.replicate 80 ' ' ++ "klmnopqrstuv".toList)).length < 30 ∧
    probe_snippets ("abcdefghij".toList ++ List.replicate 80 ' ' ++ "klmnopqrstuv".toList) ≠
      [stripWs ("abcdefghij".toList ++ List.replicate 80 ' ' ++ "klmnopqrstuv".toList)] ∧
    (probe_snippets ("abcdefghij".toList ++ List.replicate 80 ' ' ++ "klmnopqrstuv".toList)).map norm ≠
      [norm ("abcdefghij".toList ++ List.replicate 80 ' ' ++ "klmnopqrstuv".toList)] := by
  refine ⟨by decide, by decide, by decide, by decide⟩

/-- C8 (amended): the length the probe generator compares against 30 is
the raw stripped length of the tag-stripped excerpt, not its normalized
length — for every excerpt whose stripped length is under 30 (in
particular with normalized length at least 12), the generator returns
the stripped excerpt itself as the sole probe. -/
theorem probe_snippets_short (q : List Char) (_h12 : 12 ≤ (norm q).length)
    (h30 : (stripWs q).length < 30) :
    probe_snippets q = [stripWs q] := by
  simp only [probe_snippets]
  rw [if_pos h30]

theorem probe_snippets_short_witness :
    probe_snippets "AbcDefGhijkl".toList = [stripWs "AbcDefGhijkl".toList] :=
  probe_snippets_short "AbcDefGhijkl".toList (by decide) (by decide)

/-! ## Quote extraction from the answer text -/

theorem takeWhile_append_stop {α : Type} (p : α → Bool) (xs : List α) (d : α)
    (ys : List α) (hall : ∀ c ∈ xs, p c = true) (hd : p d = false) :
    (xs ++ d :: ys).takeWhile p = xs ∧ (xs ++ d :: ys).dropWhile p = d :: ys := by
  induction xs with
  | nil =>
    constructor
    · rw [List.nil_append, List.takeWhile_cons, hd]
      simp
    · rw [List.nil_append, List.dropWhile_cons, hd]
      simp
  | cons a t ih =>
    have ha : p a = true := hall a (by simp)
    obtain ⟨h1, h2⟩ := ih (fun c hc => hall c (by simp [hc]))
    constructor
    · rw [List.cons_append, List.takeWhile_cons, ha]
      simp only [if_true, h1]
    · rw [List.cons_append, List.dropWhile_cons, ha]
      simp only [if_true, h2]

theorem spanUntil_append (d : Char) (span post : List Char)
    (hfree : ∀ c ∈ span, c ≠ d) :
    spanUntil d (span ++ d :: post) = some (span, post) := by
  induction span with
  | nil =>
    rw [List.nil_append, spanUntil, if_pos rfl]
  | cons a t ih =>
    have ha : a ≠ d := hfree a (by simp)
    rw [List.cons_append, spanUntil, if_neg ha,
      ih (fun c hc => hfree c (by simp [hc]))]
    rfl

theorem scanQuote_span (d : Char) (span post : List Char) (hne : span ≠ [])
    (hfree : ∀ c ∈ span, c ≠ d) :
    scanQuote d (span ++ d :: post) = some span := by
  rw [scanQuote, spanUntil_append d span post hfree]
  simp [hne]

theorem findQuote_cons_skip (c : Char) (rest : List Char) (h1 : c ≠ '“')
    (h2 : c ≠ '"') : findQuote (c :: rest) = findQuote rest := by
  rw [findQuote.eq_2, if_neg h1, if_neg h2]

theorem findQuote_append_of_clean (pre rest : List Char)
    (hpre : ∀ c ∈ pre, c ≠ '"' ∧ c ≠ '“') :
    findQuote (pre ++ rest) = findQuote rest := by
  induction pre with
  | nil => rfl
  | cons c t ih =>
    have hc := hpre c (by simp)
    rw [List.cons_append, findQuote_cons_skip c _ hc.2 hc.1]
    exact ih (fun d hd => hpre d (by simp [hd]))

theorem findQuote_at_straight (span post : List Char) (hne : span ≠ [])
    (hfree : ∀ c ∈ span, c ≠ '"') :
    findQuote ('"' :: (span ++ '"' :: post)) = some span := by
  rw [findQuote.eq_2, if_neg (by decide), if_pos rfl,
    scanQuote_span '"' span post hne hfree]

/-- C9 counterexample: the answer holds a qualifying quoted span (length
at least 12 after trimming), yet because the FIRST quoted span is
shorter than 12 the extractor returns nothing and the synthesizer emits
no citation at all. -/
theorem extract_quote_first_span_counterexample :
    ("He said \"short\" and \"this is a long quote\".".toList =
      "He said \"short\" and ".toList ++
        ('"' :: ("this is a long quote".toList ++ '"' :: ".".toList))) ∧
    12 ≤ (stripWs "this is a long quote".toList).length ∧
    extract_quote_from_answer "He said \"short\" and \"this is a long quote\".".toList = none ∧
    synthesize_citations_from_answer
      "He said \"short\" and \"this is a long quote\".".toList "u"
      ⟨[("u", "t")], [("u", true)], [("f1", "a.pdf")], [("u", [("f1", [])])],
        [("u", ["f1"])]⟩ = [] := by
  refine ⟨by decide, by decide, by decide, by decide⟩

/-- C9 (amended): the extractor takes the FIRST quoted span of the
answer and keeps it only when its trimmed length is at least 12; a
shorter first span yields no synthesized quote even when a later span
qualifies. -/
theorem extract_quote_first_span (pre span post : List Char)
    (hpre : ∀ c ∈ pre, c ≠ '"' ∧ c ≠ '“')
    (hne : span ≠ []) (hfree : ∀ c ∈ span, c ≠ '"') :
    extract_quote_from_answer (pre ++ ('"' :: (span ++ '"' :: post))) =
      if 12 ≤ (stripWs span).length then some (stripWs span) else none := by
  have hfq : findQuote (pre ++ ('"' :: (span ++ '"' :: post))) = some span := by
    rw [findQuote_append_of_clean pre _ hpre]
    exact findQuote_at_straight span post hne hfree
  rw [extract_quote_from_answer, hfq]

/-! ## Order in which the citation synthesizer tries the documents -/

/-- C3 counterexample: a session whose two uploaded documents BOTH
locate the quoted span.  The synthesizer cites the FIRST-uploaded
document `f1`, not the most recent `f2`, although `f2` also yields a
located page. -/
theorem synthesize_most_recent_first_counterexample :
    (List.lookup "u"
      (CoachState.mk [("u", "t")] [("u", true)]
        [("f1", "a.pdf"), ("f2", "b.pdf")]
        [("u", [("f1", ["xx this is a long enough quote yy".toList]),
                ("f2", ["xx this is a long enough quote yy".toList])])]
        [("u", ["f1", "f2"])]).filesByUser = some ["f1", "f2"]) ∧
    (locate_page
      (CoachState.mk [("u", "t")] [("u", true)]
        [("f1", "a.pdf"), ("f2", "b.pdf")]
        [("u", [("f1", ["xx this is a long enough quote yy".toList]),
                ("f2", ["xx this is a long enough quote yy".toList])])]
        [("u", ["f1", "f2"])])
      "u" "f2" "This is a long enough quote".toList).isSome = true ∧
    synthesize_citations_from_answer
      "He wrote \"This is a long enough quote\" there.".toList "u"
      (CoachState.mk [("u", "t")] [("u", true)]
        [("f1", "a.pdf"), ("f2", "b.pdf")]
        [("u", [("f1", ["xx this is a long enough quote yy".toList]),
                ("f2", ["xx this is a long enough quote yy".toList])])]
        [("u", ["f1", "f2"])]) =
      [⟨"f1", "This is a long enough quote".toList⟩] ∧
    [Citation.mk "f1" "This is a long enough quote".toList] ≠
      [Citation.mk "f2" "This is a long enough quote".toList] := by
  refine ⟨by decide, by decide, by decide, by decide⟩

/-- C3 (amended): the synthesizer runs the locator against the session's
documents in STORED order — the upload (oldest-first) order, since
ingestion appends each new file id — and returns a citation for the
first document in that order that yields a located page. -/
theorem synthesize_upload_order (answer : List Char) (uid : String) (st : CoachState)
    (q : List Char) (pre suf : List String) (fid : String)
    (hq : extract_quote_from_answer answer = some q)
    (hf : List.lookup uid st.filesByUser = some (pre ++ fid :: suf))
    (hpre : ∀ f ∈ pre, (locate_page st uid f q).isSome = false)
    (hfid : (locate_page st uid fid q).isSome = true) :
    synthesize_citations_from_answer answer uid st = [⟨fid, q⟩] := by
  rw [synthesize_citations_from_answer, hq]
  simp only [hf, Option.getD_some]
  have hfind : (pre ++ fid :: suf).find?
      (fun f => (locate_page st uid f q).isSome) = some fid := by
    rw [List.find?_append]
    have h1 : pre.find? (fun f => (locate_page st uid f q).isSome) = none :=
      List.find?_eq_none.mpr (fun x hx => by simp [hpre x hx])
    rw [h1, List.find?_cons_of_pos (p := fun f => (locate_page st uid f q).isSome) suf hfid]
    rfl
  rw [hfind]

theorem synthesize_upload_order_witness :
    synthesize_citations_from_answer
      "He wrote \"This is a long enough quote\" there.".toList "u"
      (CoachState.mk [("u", "t")] [("u", true)] [("f1", "a.pdf")]
        [("u", [("f1", ["xx this is a long enough quote yy".toList])])]
        [("u", ["f1"])]) =
      [⟨"f1", "This is a long enough quote".toList⟩] :=
  synthesize_upload_order _ _ _ _ [] [] "f1" (by decide) (by decide)
    (fun f hf => absurd hf (by simp)) (by decide)

/-! ## Reset wipes the filename map of every session -/

/-- C4: resetting session `A` pops only `A`'s thread, flag, page index
and file list, but the `_FILE_MAP` loop pops EVERY key, so session `B`
loses the filename mapping of its own upload `fB` (its other state is
untouched). -/
theorem reset_clears_other_sessions_filemap :
    (List.lookup "fB"
      (CoachState.mk [("A", "tA"), ("B", "tB")] [("A", true), ("B", true)]
        [("fA", "a.pdf"), ("fB", "b.pdf")]
        [("A", [("fA", [])]), ("B", [("fB", [])])]
        [("A", ["fA"]), ("B", ["fB"])]).fileMap = some "b.pdf") ∧
    (List.lookup "fB"
      (reset_user_thread "A"
        (CoachState.mk [("A", "tA"), ("B", "tB")] [("A", true), ("B", true)]
          [("fA", "a.pdf"), ("fB", "b.pdf")]
          [("A", [("fA", [])]), ("B", [("fB", [])])]
          [("A", ["fA"]), ("B", ["fB"])])).fileMap = none) ∧
    (List.lookup "B"
      (reset_user_thread "A"
        (CoachState.mk [("A", "tA"), ("B", "tB")] [("A", true), ("B", true)]
          [("fA", "a.pdf"), ("fB", "b.pdf")]
          [("A", [("fA", [])]), ("B", [("fB", [])])]
          [("A", ["fA"]), ("B", ["fB"])])).filesByUser = some ["fB"]) ∧
    (List.lookup "B"
      (reset_user_thread "A"
        (CoachState.mk [("A", "tA"), ("B", "tB")] [("A", true), ("B", true)]
          [("fA", "a.pdf"), ("fB", "b.pdf")]
          [("A", [("fA", [])]), ("B", [("fB", [])])]
          [("A", ["fA"]), ("B", ["fB"])])).pageIndex = some [("fB", [])]) ∧
    (List.lookup "B"
      (reset_user_thread "A"
        (CoachState.mk [("A", "tA"), ("B", "tB")] [("A", true), ("B", true)]
          [("fA", "a.pdf"), ("fB", "b.pdf")]
          [("A", [("fA", [])]), ("B", [("fB", [])])]
          [("A", ["fA"]), ("B", ["fB"])])).threadByUser = some "tB") ∧
    (List.lookup "A"
      (reset_user_thread "A"
        (CoachState.mk [("A", "tA"), ("B", "tB")] [("A", true), ("B", true)]
          [("fA", "a.pdf"), ("fB", "b.pdf")]
          [("A", [("fA", [])]), ("B", [("fB", [])])]
          [("A", ["fA"]), ("B", ["fB"])])).filesByUser = none) := by
  refine ⟨by decide, by decide, by decide, by decide, by decide, by decide⟩

theorem extract_quote_first_span_witness :
    extract_quote_from_answer
      ("ab ".toList ++ ('"' :: ("this is a long quote".toList ++ '"' :: " cd".toList))) =
      some (stripWs "this is a long quote".toList) := by
  rw [extract_quote_first_span "ab ".toList "this is a long quote".toList " cd".toList
    (by decide) (by decide) (by decide)]
  decide

/-! ## Early size rejection in `coach_answer` -/

theorem processAttachment_small (env : Env) (st : CoachState) (uid : String)
    (a : Attachment)
    (hct : a.content_type = some "application/pdf" ∨ a.content_type = some "text/plain")
    (hsize : a.size < 1024) :
    processAttachment env st uid a = .early MSG_EMPTY := by
  rcases hct with h | h <;>
  · by_cases hz : a.size = 0
    · simp [processAttachment, h, hz]
    · simp [processAttachment, h, hz, hsize]

theorem processAttachment_small_download (env : Env) (st : CoachState) (uid : String)
    (a : Attachment) (dlen : ℕ)
    (hct : a.content_type = some "application/pdf" ∨ a.content_type = some "text/plain")
    (hlo : 1024 ≤ a.size) (hhi : a.size ≤ 15 * 1024 * 1024)
    (hfetch : env.fetchResult = .ok dlen) (hdlen : dlen < 1024) :
    processAttachment env st uid a = .early MSG_EMPTY := by
  have h0 : ¬ a.size = 0 := by omega
  have h1 : ¬ a.size < 1024 := by omega
  have h2 : ¬ 15 * 1024 * 1024 < a.size := by omega
  have h3 : dlen = 0 ∨ dlen < 1024 := Or.inr hdlen
  rcases hct with h | h <;>
    simp [processAttachment, h, h0, h1, h2, hfetch, h3]

/-- C7 counterexample: an attachment with declared size 0 whose declared
type is unsupported is rejected with the UnsupportedType message, not
the EmptyDocument message (the type guard runs first; no upload happens
either way). -/
theorem coach_answer_unsupported_small_counterexample :
    (coach_answer
      (Env.mk true (.ok "t") (.ok 0) none [] none none (.error "e"))
      (CoachState.mk [("u", "t0")] [] [] [] []) "u" []
      (some (Attachment.mk (some "image/png") "x.png" 0 "url"))).1 =
      .ok MSG_UNSUPPORTED ∧ MSG_UNSUPPORTED ≠ MSG_EMPTY :=
  ⟨rfl, by decide⟩

/-- C7 (amended): once the assistant is configured and the session's
thread exists, every attachment of a supported declared type whose
declared byte size is 0 or under the 1024-byte floor makes `coach_answer`
return the EmptyDocument message with the module state untouched and the
upload collaborator never invoked.  (An unsupported declared type is
rejected even earlier, with the UnsupportedType message and again no
upload.) -/
theorem coach_answer_small_attachment (env : Env) (st : CoachState) (uid : String)
    (question : List Char) (a : Attachment) (tid : String)
    (hcfg : env.assistantConfigured = true)
    (hthr : List.lookup uid st.threadByUser = some tid)
    (hct : a.content_type = some "application/pdf" ∨ a.content_type = some "text/plain")
    (hsize : a.size < 1024) :
    coach_answer env st uid question (some a) = (.ok MSG_EMPTY, st, false) := by
  have hpa := processAttachment_small env st uid a hct hsize
  have hthread : get_or_create_thread env st uid = .ok (tid, st) := by
    rw [get_or_create_thread, hthr]
  rw [coach_answer]
  simp only [hcfg, hthread, hpa]
  simp

theorem coach_answer_small_attachment_witness :
    coach_answer
      (Env.mk true (.ok "t") (.ok 0) none [] none none (.error "e"))
      (CoachState.mk [("u", "t0")] [] [] [] []) "u" []
      (some (Attachment.mk (some "text/plain") "a.txt" 100 "url")) =
      (.ok MSG_EMPTY, CoachState.mk [("u", "t0")] [] [] [] [], false) :=
  coach_answer_small_attachment _ _ "u" [] _ "t0" (by decide) (by decide)
    (Or.inr rfl) (by decide)

/-- C10: when the declared size passed the early guards but the fetched
payload is empty or under the 1024-byte floor, `coach_answer` returns
the EmptyDocument message, with the module state untouched and the
upload collaborator never invoked (the byte floor is re-checked on the
actual downloaded bytes). -/
theorem coach_answer_small_download (env : Env) (st : CoachState) (uid : String)
    (question : List Char) (a : Attachment) (tid : String) (dlen : ℕ)
    (hcfg : env.assistantConfigured = true)
    (hthr : List.lookup uid st.threadByUser = some tid)
    (hct : a.content_type = some "application/pdf" ∨ a.content_type = some "text/plain")
    (hlo : 1024 ≤ a.size) (hhi : a.size ≤ 15 * 1024 * 1024)
    (hfetch : env.fetchResult = .ok dlen) (hdlen : dlen < 1024) :
    coach_answer env st uid question (some a) = (.ok MSG_EMPTY, st, false) := by
  have hpa := processAttachment_small_download env st uid a dlen hct hlo hhi hfetch hdlen
  have hthread : get_or_create_thread env st uid = .ok (tid, st) := by
    rw [get_or_create_thread, hthr]
  rw [coach_answer]
  simp only [hcfg, hthread, hpa]
  simp

theorem coach_answer_small_download_witness :
    coach_answer
      (Env.mk true (.ok "t") (.ok 500) none [] none none (.error "e"))
      (CoachState.mk [("u", "t0")] [] [] [] []) "u" []
      (some (Attachment.mk (some "application/pdf") "a.pdf" 5000 "url")) =
      (.ok MSG_EMPTY, CoachState.mk [("u", "t0")] [] [] [] [], false) :=
  coach_answer_small_download _ _ "u" [] _ "t0" 500 (by decide) (by decide)
    (Or.inl rfl) (by decide) (by decide) rfl (by decide)

/-! ## Exception behaviour of `coach_answer` -/

/-- C5 counterexample: with an established session (thread and prior
upload flag present) and no attachment, a failure of the message-posting
collaborator escapes `coach_answer` as an exception instead of being
mapped to a string. -/
theorem coach_answer_propagates_post_exception :
    (coach_answer
      (Env.mk true (.ok "t") (.ok 0) none [] none (some "boom") (.error "boom2"))
      (CoachState.mk [("u", "t0")] [("u", true)] [] [] []) "u" [] none).1 =
      .error "boom" := rfl

/-- The common tail of `coach_answer` after the attachment phase: with a
successful post and run it always produces a string. -/
theorem coach_answer_go_resolves (env : Env) (st1 : CoachState) (uid : String)
    (fids : List String) (uploaded : Bool)
    (hpost : env.postResult = none) (hrun : ∃ r, env.runResult = .ok r) :
    ∃ msg st' up,
      (if fids.isEmpty ∧ ¬ ((List.lookup uid st1.hasFileInSession).getD false) then
        ((.ok MSG_NEED_UPLOAD : Except String (List Char)), st1, uploaded)
      else
        match env.postResult with
        | some e => (.error e, st1, uploaded)
        | none =>
          match env.runResult with
          | .error e => (.error e, st1, uploaded)
          | .ok (answer, cites) =>
            let cites2 :=
              if cites.isEmpty then
                let fb := synthesize_citations_from_answer answer uid st1
                if fb.isEmpty then cites else fb
              else cites
            (.ok (format_with_citations answer cites2 uid st1), st1, uploaded)) =
        (.ok msg, st', up) := by
  by_cases hneed : fids.isEmpty ∧ ¬ ((List.lookup uid st1.hasFileInSession).getD false)
  · exact ⟨MSG_NEED_UPLOAD, st1, uploaded, by rw [if_pos hneed]⟩
  · obtain ⟨⟨ans, cites⟩, hr⟩ := hrun
    refine ⟨format_with_citations ans
      (if cites.isEmpty then
        (if (synthesize_citations_from_answer ans uid st1).isEmpty then cites
         else synthesize_citations_from_answer ans uid st1)
       else cites) uid st1, st1, uploaded, ?_⟩
    rw [if_neg hneed, hpost, hr]

/-- C5 (amended): all failures of the attachment pipeline (type/size
guards, byte fetch, PDF preflight, upload) resolve to a returned string,
for every attachment and every outcome of those collaborators — but only
provided thread creation, message posting and the run/poll loop succeed;
exceptions from those three boundary calls propagate to the caller
(which `main.py` guards with its own try/except). -/
theorem coach_answer_attachment_errors_resolve (env : Env) (st : CoachState)
    (uid : String) (question : List Char) (att : Option Attachment)
    (hthr : (∃ tid, List.lookup uid st.threadByUser = some tid) ∨
      ∃ t, env.createThread = .ok t)
    (hpost : env.postResult = none)
    (hrun : ∃ r, env.runResult = .ok r) :
    ∃ msg st' up, coach_answer env st uid question att = (.ok msg, st', up) := by
  by_cases hcfg : env.assistantConfigured = false
  · exact ⟨MSG_NOT_CONFIGURED, st, false, by rw [coach_answer, if_pos hcfg]⟩
  · have hthread : ∃ t st0, get_or_create_thread env st uid = .ok (t, st0) := by
      rw [get_or_create_thread]
      cases hl : List.lookup uid st.threadByUser with
      | some tid => exact ⟨tid, st, rfl⟩
      | none =>
        rcases hthr with ⟨tid, h1⟩ | ⟨t, ht⟩
        · rw [hl] at h1; cases h1
        · rw [ht]; exact ⟨t, _, rfl⟩
    rcases hthread with ⟨t, st0, hth⟩
    rw [coach_answer, if_neg hcfg]
    cases att with
    | none =>
      simp only [hth]
      exact coach_answer_go_resolves env st0 uid [] false hpost hrun
    | some a =>
      simp only [hth]
      cases hph : processAttachment env st0 uid a with
      | early m => exact ⟨m, st0, false, rfl⟩
      | go st1 fids uploaded =>
        exact coach_answer_go_resolves env st1 uid fids uploaded hpost hrun

theorem coach_answer_attachment_errors_resolve_witness :
    ∃ msg st' up,
      coach_answer
        (Env.mk true (.ok "t") .runtimeError none [] none none (.ok ([], [])))
        (CoachState.mk [("u", "t0")] [("u", true)] [] [] []) "u" []
        (some (Attachment.mk (some "application/pdf") "a.pdf" 5000 "url")) =
        (.ok msg, st', up) :=
  coach_answer_attachment_errors_resolve _ _ "u" [] _
    (Or.inl ⟨"t0", rfl⟩) rfl ⟨([], []), rfl⟩

end Coach
